import Mathlib

/-!
Shallow embedding of `scripts/update-news.py` (news fetch/normalize/merge
pipeline).  Python strings are modelled as `List Char`; the functions
`is_from_allowed_source`, `parse_date`, `normalize_item`, `merge_items` and the
per-entity loop of `main` are translated definition-by-definition from the
source.  All definitions are executable so concrete test vectors evaluate by
`decide` / `rfl`.
-/

/-- Python strings, modelled as lists of characters. -/
abbrev Str := List Char

/-- ASCII whitespace recognised by Python's `str.strip()` (the source only ever
meets ASCII input; Unicode spaces are out of scope of the model). -/
def isPySpace (c : Char) : Bool :=
  c = ' ' || c = '\t' || c = '\n' || c = '\r' || c = Char.ofNat 11 || c = Char.ofNat 12

/-- Python `s.strip()`: drop leading and trailing whitespace. -/
def pyStrip (s : Str) : Str :=
  ((s.dropWhile isPySpace).reverse.dropWhile isPySpace).reverse

/-- Python `s.lower()` (ASCII case folding, all the source's data is ASCII). -/
def lowerStr (s : Str) : Str := s.map Char.toLower

/-- The literal delimiter `" - "` from `normalize_item`. -/
def delim : Str := [' ', '-', ' ']

/-- Python `s.rsplit(" - ", 1)`: split at the rightmost occurrence of the
delimiter, `none` when the delimiter does not occur (Python would return a
one-element list; the source only calls it under `" - " in title`). -/
def rsplit1 : Str → Option (Str × Str)
  | [] => none
  | c :: rest =>
    match rsplit1 rest with
    | some (a, b) => some (c :: a, b)
    | none =>
      if delim.isPrefixOf (c :: rest) then some ([], (c :: rest).drop 3)
      else none

/-- Apostrophe character (for the allow-list entry `Barron's`). -/
def apos : Char := Char.ofNat 39

/-- The `ALLOWED_SOURCES` configuration list from the source. -/
def ALLOWED_SOURCES : List Str :=
  [ "Nikkei Asia".data
  , "Financial Times".data
  , "Bloomberg".data
  , "South China Morning Post".data
  , "CHOSUNBIZ".data
  , "The Korea Times".data
  , "The Korea Herald".data
  , "Reuters".data
  , "The Japan Times".data
  , "Yonhap News Agency".data
  , "CNBC".data
  , "Barron".data ++ [apos, 's']
  , "WSJ".data
  ]

/-- Python's substring test `needle in hay`. -/
def isSubstr (needle : Str) : Str → Bool
  | [] => needle.isEmpty
  | c :: rest => needle.isPrefixOf (c :: rest) || isSubstr needle rest

theorem isSubstr_iff (needle hay : Str) : isSubstr needle hay = true ↔ needle <:+: hay := by
  induction hay with
  | nil =>
    simp [isSubstr, List.isEmpty_iff, List.infix_nil]
  | cons c rest ih =>
    simp [isSubstr, List.infix_cons_iff, List.isPrefixOf_iff_prefix, ih]

/-- A feed item: both the raw shape produced by `fetch_rss` and the normalized
shape stored in the archive have exactly these four string fields. -/
structure Item where
  title : Str
  link : Str
  pubDate : Str
  source : Str
deriving DecidableEq, Repr

/-- Embedding of `is_from_allowed_source(item)`: some allow-listed name is a substring of the
lower-cased title or the lower-cased source. -/
def is_from_allowed_source (item : Item) : Bool :=
  let title_lower := lowerStr item.title
  let source_lower := lowerStr item.source
  ALLOWED_SOURCES.any fun src =>
    isSubstr (lowerStr src) title_lower || isSubstr (lowerStr src) source_lower

/-- The `any(trailing.lower() == src.lower() for src in ALLOWED_SOURCES)` test
inside `normalize_item`. -/
def isKnownSource (trailing : Str) : Bool :=
  ALLOWED_SOURCES.any fun src => decide (lowerStr trailing = lowerStr src)

/-- The `while " - " in title` loop of `normalize_item`, fuel-indexed.  Each
iteration removes at least the three delimiter characters from the title, so
any `fuel > title.length` is beyond the number of iterations the Python loop
can perform; `clean_title_loop_congr` proves the result is then independent of
the fuel, i.e. the fuel-free loop terminates with this value. -/
def clean_title_loop : Nat → Str → Str → Str × Str
  | 0, title, source => (title, source)
  | fuel + 1, title, source =>
    match rsplit1 title with
    | none => (title, source)
    | some (p0, p1) =>
      let trailing := pyStrip p1
      if isKnownSource trailing = true ∨ (source ≠ [] ∧ lowerStr trailing = lowerStr source) then
        let source2 := if source = [] then trailing else source
        clean_title_loop fuel (pyStrip p0) source2
      else (title, source)

/-- The title/source cleaning of `normalize_item` (lines 132-151 of the
source): run the strip loop to completion. -/
def clean_title (title source : Str) : Str × Str :=
  clean_title_loop (title.length + 1) title source

theorem rsplit1_append (t a b : Str) (h : rsplit1 t = some (a, b)) :
    a ++ delim ++ b = t := by
  induction t generalizing a b with
  | nil => simp [rsplit1] at h
  | cons c rest ih =>
    rw [rsplit1] at h
    cases hr : rsplit1 rest with
    | some p =>
      obtain ⟨a', b'⟩ := p
      rw [hr] at h
      simp only [Option.some.injEq, Prod.mk.injEq] at h
      obtain ⟨rfl, rfl⟩ := h
      simp [List.cons_append, ih a' b' hr]
    | none =>
      rw [hr] at h
      by_cases hp : delim.isPrefixOf (c :: rest) = true
      · simp only [hp, if_true, Option.some.injEq, Prod.mk.injEq] at h
        obtain ⟨rfl, rfl⟩ := h
        obtain ⟨u, hu⟩ := List.isPrefixOf_iff_prefix.mp hp
        rw [← hu]
        rfl
      · simp [hp] at h

theorem rsplit1_none_iff (t : Str) : rsplit1 t = none ↔ ¬ delim <:+: t := by
  induction t with
  | nil => simp [rsplit1, delim]
  | cons c rest ih =>
    rw [rsplit1]
    cases hr : rsplit1 rest with
    | some p =>
      obtain ⟨a', b'⟩ := p
      have hrest : delim <:+: rest := by
        by_contra hn
        rw [ih.mpr hn] at hr
        cases hr
      show (some (c :: a', b') = none) ↔ ¬ delim <:+: c :: rest
      simp only [reduceCtorEq, false_iff, not_not]
      exact List.infix_cons hrest
    | none =>
      have hni : ¬ delim <:+: rest := ih.mp hr
      by_cases hp : delim.isPrefixOf (c :: rest) = true
      · simp only [hp, if_true, reduceCtorEq, false_iff, not_not]
        obtain ⟨u, hu⟩ := List.isPrefixOf_iff_prefix.mp hp
        exact ⟨[], u, by simpa using hu⟩
      · have hcond : delim.isPrefixOf (c :: rest) = false := Bool.eq_false_iff.mpr hp
        simp only [hcond, Bool.false_eq_true, if_false, List.infix_cons_iff, true_iff]
        push_neg
        exact ⟨fun hpre => hp ( List.isPrefixOf_iff_prefix.mpr hpre), hni⟩

theorem pyStrip_length_le (s : Str) : (pyStrip s).length ≤ s.length := by
  unfold pyStrip
  calc ((s.dropWhile isPySpace).reverse.dropWhile isPySpace).reverse.length
      = ((s.dropWhile isPySpace).reverse.dropWhile isPySpace).length := by
        simp
    _ ≤ (s.dropWhile isPySpace).reverse.length :=
        (List.dropWhile_sublist _).length_le
    _ = (s.dropWhile isPySpace).length := by simp
    _ ≤ s.length := (List.dropWhile_sublist _).length_le

theorem rsplit1_fst_length_lt (t a b : Str) (h : rsplit1 t = some (a, b)) :
    a.length + 3 ≤ t.length := by
  have := congrArg List.length (rsplit1_append t a b h)
  simp [delim] at this
  omega

theorem clean_title_loop_congr (fuel fuel' : Nat) (t s : Str)
    (h : t.length < fuel) (h' : t.length < fuel') :
    clean_title_loop fuel t s = clean_title_loop fuel' t s := by
  induction fuel generalizing fuel' t s with
  | zero => omega
  | succ fuel ih =>
    cases fuel' with
    | zero => omega
    | succ fuel' =>
      rw [clean_title_loop, clean_title_loop]
      cases hr : rsplit1 t with
      | none => rfl
      | some p =>
        obtain ⟨p0, p1⟩ := p
        simp only
        split
        · have hlen : p0.length + 3 ≤ t.length := rsplit1_fst_length_lt t p0 p1 hr
          have hps : (pyStrip p0).length ≤ p0.length := pyStrip_length_le p0
          exact ih fuel' (pyStrip p0) _ (by omega) (by omega)
        · rfl

/-! ### Date parsing (`parse_date`, lines 97-112)

`datetime.strptime` is modelled directive-by-directive after CPython's
`_strptime` regular expressions: `%d` is `3[01]|[12]\d|0[1-9]|[1-9]`, `%H` is
`2[0-3]|[0-1]\d|\d`, `%M` is `[0-5]\d|\d`, `%S` is `6[0-1]|[0-5]\d|\d`, `%m`
is `1[0-2]|0[1-9]|[1-9]`, `%Y` is four digits, `%a`/`%b` are the abbreviated
C-locale names (case-insensitive), `%Z` is the always-present `utc`/`gmt`
timezone-name alternatives (host-`tzname` extras are environment specific and
outside the model), `%z` is `[+-]\d\d:?[0-5]\d(:?[0-5]\d(\.\d{1,6})?)?|Z`
with the trailing `Z` case-sensitive, whitespace in a format matches one or
more whitespace characters, literal letters match case-insensitively, and the
whole input must be consumed.  Out-of-range values that the regex admits but
`datetime()`/`timezone()` reject (day beyond month length, leap seconds,
offsets of a day or more) make the format fail, which `parse_date` turns into
trying the next format. -/

/-- A parsed `datetime`: `%Z` formats yield a naive value (`tzoff = none`),
`%z` formats an aware one with the UTC offset in microseconds. -/
structure PyDateTime where
  year : Nat
  month : Nat
  day : Nat
  hour : Nat
  minute : Nat
  second : Nat
  tzoff : Option Int
deriving DecidableEq, Repr

/-- Digit value of an ASCII digit character. -/
def digitVal (c : Char) : Nat := c.toNat - 48

/-- Directive `%d`: regex `3[01]|[12]\d|0[1-9]|[1-9]`. -/
def matchDay : Str → Option (Nat × Str)
  | c1 :: c2 :: rest =>
    if c1 = '3' ∧ (c2 = '0' ∨ c2 = '1') then some (30 + digitVal c2, rest)
    else if (c1 = '1' ∨ c1 = '2') ∧ c2.isDigit then
      some (digitVal c1 * 10 + digitVal c2, rest)
    else if c1 = '0' ∧ ('1' ≤ c2 ∧ c2 ≤ '9') then some (digitVal c2, rest)
    else if '1' ≤ c1 ∧ c1 ≤ '9' then some (digitVal c1, c2 :: rest)
    else none
  | [c1] => if '1' ≤ c1 ∧ c1 ≤ '9' then some (digitVal c1, []) else none
  | [] => none

/-- Directive `%H`: regex `2[0-3]|[0-1]\d|\d`. -/
def matchHour : Str → Option (Nat × Str)
  | c1 :: c2 :: rest =>
    if c1 = '2' ∧ ('0' ≤ c2 ∧ c2 ≤ '3') then some (20 + digitVal c2, rest)
    else if (c1 = '0' ∨ c1 = '1') ∧ c2.isDigit then
      some (digitVal c1 * 10 + digitVal c2, rest)
    else if c1.isDigit then some (digitVal c1, c2 :: rest)
    else none
  | [c1] => if c1.isDigit then some (digitVal c1, []) else none
  | [] => none

/-- Directive `%M`: regex `[0-5]\d|\d`. -/
def matchMinute : Str → Option (Nat × Str)
  | c1 :: c2 :: rest =>
    if ('0' ≤ c1 ∧ c1 ≤ '5') ∧ c2.isDigit then
      some (digitVal c1 * 10 + digitVal c2, rest)
    else if c1.isDigit then some (digitVal c1, c2 :: rest)
    else none
  | [c1] => if c1.isDigit then some (digitVal c1, []) else none
  | [] => none

/-- Directive `%S`: regex `6[0-1]|[0-5]\d|\d` (leap seconds pass the regex and are
rejected later by the `datetime` constructor). -/
def matchSecond : Str → Option (Nat × Str)
  | c1 :: c2 :: rest =>
    if c1 = '6' ∧ (c2 = '0' ∨ c2 = '1') then some (60 + digitVal c2, rest)
    else if ('0' ≤ c1 ∧ c1 ≤ '5') ∧ c2.isDigit then
      some (digitVal c1 * 10 + digitVal c2, rest)
    else if c1.isDigit then some (digitVal c1, c2 :: rest)
    else none
  | [c1] => if c1.isDigit then some (digitVal c1, []) else none
  | [] => none

/-- Directive `%m`: regex `1[0-2]|0[1-9]|[1-9]`. -/
def matchMonthNum : Str → Option (Nat × Str)
  | c1 :: c2 :: rest =>
    if c1 = '1' ∧ ('0' ≤ c2 ∧ c2 ≤ '2') then some (10 + digitVal c2, rest)
    else if c1 = '0' ∧ ('1' ≤ c2 ∧ c2 ≤ '9') then some (digitVal c2, rest)
    else if '1' ≤ c1 ∧ c1 ≤ '9' then some (digitVal c1, c2 :: rest)
    else none
  | [c1] => if '1' ≤ c1 ∧ c1 ≤ '9' then some (digitVal c1, []) else none
  | [] => none

/-- Directive `%Y`: exactly four digits. -/
def matchYear4 : Str → Option (Nat × Str)
  | c1 :: c2 :: c3 :: c4 :: rest =>
    if c1.isDigit ∧ c2.isDigit ∧ c3.isDigit ∧ c4.isDigit then
      some (digitVal c1 * 1000 + digitVal c2 * 100 + digitVal c3 * 10 + digitVal c4, rest)
    else none
  | _ => none

/-- Exactly two digits (used inside `%z`). -/
def matchDigit2 : Str → Option (Nat × Str)
  | c1 :: c2 :: rest =>
    if c1.isDigit ∧ c2.isDigit then some (digitVal c1 * 10 + digitVal c2, rest)
    else none
  | _ => none

/-- Regex `[0-5]\d` (two digits, used inside `%z`). -/
def matchMM2 : Str → Option (Nat × Str)
  | c1 :: c2 :: rest =>
    if ('0' ≤ c1 ∧ c1 ≤ '5') ∧ c2.isDigit then
      some (digitVal c1 * 10 + digitVal c2, rest)
    else none
  | _ => none

/-- Case-insensitive match of one name from a list, returning its index. -/
def matchNameCI : List Str → Nat → Str → Option (Nat × Str)
  | [], _, _ => none
  | n :: ns, i, s =>
    if lowerStr (s.take n.length) = lowerStr n then some (i, s.drop n.length)
    else matchNameCI ns (i + 1) s

def WEEKDAY_ABBRS : List Str :=
  ["Mon".data, "Tue".data, "Wed".data, "Thu".data, "Fri".data, "Sat".data, "Sun".data]

def MONTH_ABBRS : List Str :=
  [ "Jan".data, "Feb".data, "Mar".data, "Apr".data, "May".data, "Jun".data
  , "Jul".data, "Aug".data, "Sep".data, "Oct".data, "Nov".data, "Dec".data ]

/-- Directive `%a`: an abbreviated weekday name (its value is ignored by the source). -/
def matchWeekday (s : Str) : Option Str :=
  (matchNameCI WEEKDAY_ABBRS 0 s).map Prod.snd

/-- Directive `%b`: an abbreviated month name, yielding the month number 1-12. -/
def matchMonthAbbr (s : Str) : Option (Nat × Str) :=
  (matchNameCI MONTH_ABBRS 0 s).map fun p => (p.1 + 1, p.2)

/-- Directive `%Z`: the `utc` / `gmt` timezone names (case-insensitive); produces a
naive datetime, exactly as CPython's `%Z` does. -/
def matchTzName (s : Str) : Option Str :=
  (matchNameCI ["utc".data, "gmt".data] 0 s).map Prod.snd

/-- A literal character of the format (letters match case-insensitively since
`_strptime` compiles with `IGNORECASE`). -/
def matchLit (c : Char) : Str → Option Str
  | x :: rest => if x.toLower = c.toLower then some rest else none
  | [] => none

/-- Whitespace in a format is compiled to the regex `\s+`. -/
def matchSpaces : Str → Option Str
  | c :: rest => if isPySpace c then some (rest.dropWhile isPySpace) else none
  | [] => none

/-- The optional `(:?[0-5]\d(\.\d{1,6})?)?` seconds part of `%z`:
returns (whether a colon preceded it, seconds, fractional microseconds, rest). -/
def matchOffSeconds (s : Str) : Option (Bool × Nat × Nat × Str) :=
  let (colon2, s1) := match s with
    | ':' :: r => (true, r)
    | _ => (false, s)
  match matchMM2 s1 with
  | none => none
  | some (ss, s2) =>
    match s2 with
    | '.' :: r =>
      let ds := (r.takeWhile Char.isDigit).take 6
      if ds.length = 0 then some (colon2, ss, 0, s2)
      else
        let v := ds.foldl (fun acc c => acc * 10 + digitVal c) 0
        some (colon2, ss, v * 10 ^ (6 - ds.length), r.drop ds.length)
    | _ => some (colon2, ss, 0, s2)

/-- Directive `%z`: numeric UTC offset (or a case-sensitive literal `Z`).  Mirrors both
the regex and `_strptime`'s post-processing: mixed colon usage between the
minutes and seconds parts raises `ValueError` (format fails), and
`timezone()` rejects offsets of 24 hours or more. -/
def matchTzOffset : Str → Option (Int × Str)
  | 'Z' :: rest => some ((0 : Int), rest)
  | c :: s1 =>
    if c = '+' ∨ c = '-' then
      match matchDigit2 s1 with
      | none => none
      | some (hh, s2) =>
        let (colon1, s2b) := match s2 with
          | ':' :: r => (true, r)
          | _ => (false, s2)
        match matchMM2 s2b with
        | none => none
        | some (mm, s3) =>
          let (secs, frac, s4) := match matchOffSeconds s3 with
            | some (colon2, ss, fr, s') =>
              if colon2 = colon1 then (some ss, fr, s') else (none, 0, s3)
            | none => (none, 0, s3)
          match secs, frac, s4 with
          | none, _, _ =>
            -- no consistent seconds group: offset is hours and minutes only
            let total : Nat := (hh * 3600 + mm * 60) * 1000000
            if total < 86400000000 then
              some (if c = '-' then -(total : Int) else (total : Int), s3)
            else none
          | some ss, fr, s' =>
            let total : Nat := (hh * 3600 + mm * 60 + ss) * 1000000 + fr
            if total < 86400000000 then
              some (if c = '-' then -(total : Int) else (total : Int), s')
            else none
    else none
  | [] => none

/-- Gregorian leap year (as `calendar.isleap` / `datetime`). -/
def isLeapYear (y : Nat) : Bool :=
  y % 4 = 0 && (y % 100 ≠ 0 || y % 400 = 0)

def daysInMonth (y m : Nat) : Nat :=
  if m = 2 then (if isLeapYear y then 29 else 28)
  else if m = 4 ∨ m = 6 ∨ m = 9 ∨ m = 11 then 30
  else 31

/-- The `datetime(...)` constructor validation that the directive regexes do
not already enforce: year at least 1 (four digits cap it at 9999), the day
must exist in the month, and seconds 60/61 admitted by `%S` are rejected. -/
def mkDateTime (y mo d hh mi ss : Nat) (tz : Option Int) : Option PyDateTime :=
  if 1 ≤ y ∧ d ≤ daysInMonth y mo ∧ ss ≤ 59 then
    some ⟨y, mo, d, hh, mi, ss, tz⟩
  else none

/-- Format `"%a, %d %b %Y %H:%M:%S %Z"`. -/
def parseFmt1 (s : Str) : Option PyDateTime := do
  let s ← matchWeekday s
  let s ← matchLit ',' s
  let s ← matchSpaces s
  let (d, s) ← matchDay s
  let s ← matchSpaces s
  let (mo, s) ← matchMonthAbbr s
  let s ← matchSpaces s
  let (y, s) ← matchYear4 s
  let s ← matchSpaces s
  let (hh, s) ← matchHour s
  let s ← matchLit ':' s
  let (mi, s) ← matchMinute s
  let s ← matchLit ':' s
  let (ss, s) ← matchSecond s
  let s ← matchSpaces s
  let s ← matchTzName s
  if s.isEmpty then mkDateTime y mo d hh mi ss none else none

/-- Format `"%a, %d %b %Y %H:%M:%S %z"`. -/
def parseFmt2 (s : Str) : Option PyDateTime := do
  let s ← matchWeekday s
  let s ← matchLit ',' s
  let s ← matchSpaces s
  let (d, s) ← matchDay s
  let s ← matchSpaces s
  let (mo, s) ← matchMonthAbbr s
  let s ← matchSpaces s
  let (y, s) ← matchYear4 s
  let s ← matchSpaces s
  let (hh, s) ← matchHour s
  let s ← matchLit ':' s
  let (mi, s) ← matchMinute s
  let s ← matchLit ':' s
  let (ss, s) ← matchSecond s
  let s ← matchSpaces s
  let (off, s) ← matchTzOffset s
  if s.isEmpty then mkDateTime y mo d hh mi ss (some off) else none

/-- Format `"%Y-%m-%dT%H:%M:%S%z"`. -/
def parseFmt3 (s : Str) : Option PyDateTime := do
  let (y, s) ← matchYear4 s
  let s ← matchLit '-' s
  let (mo, s) ← matchMonthNum s
  let s ← matchLit '-' s
  let (d, s) ← matchDay s
  let s ← matchLit 'T' s
  let (hh, s) ← matchHour s
  let s ← matchLit ':' s
  let (mi, s) ← matchMinute s
  let s ← matchLit ':' s
  let (ss, s) ← matchSecond s
  let (off, s) ← matchTzOffset s
  if s.isEmpty then mkDateTime y mo d hh mi ss (some off) else none

/-- Format `"%Y-%m-%dT%H:%M:%SZ"`. -/
def parseFmt4 (s : Str) : Option PyDateTime := do
  let (y, s) ← matchYear4 s
  let s ← matchLit '-' s
  let (mo, s) ← matchMonthNum s
  let s ← matchLit '-' s
  let (d, s) ← matchDay s
  let s ← matchLit 'T' s
  let (hh, s) ← matchHour s
  let s ← matchLit ':' s
  let (mi, s) ← matchMinute s
  let s ← matchLit ':' s
  let (ss, s) ← matchSecond s
  let s ← matchLit 'Z' s
  if s.isEmpty then mkDateTime y mo d hh mi ss none else none

/-- Format `"%Y-%m-%d %H:%M:%S"`. -/
def parseFmt5 (s : Str) : Option PyDateTime := do
  let (y, s) ← matchYear4 s
  let s ← matchLit '-' s
  let (mo, s) ← matchMonthNum s
  let s ← matchLit '-' s
  let (d, s) ← matchDay s
  let s ← matchSpaces s
  let (hh, s) ← matchHour s
  let s ← matchLit ':' s
  let (mi, s) ← matchMinute s
  let s ← matchLit ':' s
  let (ss, s) ← matchSecond s
  if s.isEmpty then mkDateTime y mo d hh mi ss none else none

/-- Embedding of `parse_date(date_str)`: try the five formats in order, `none` when every
format fails (Python returns `None`). -/
def parse_date (s : Str) : Option PyDateTime :=
  parseFmt1 s <|> parseFmt2 s <|> parseFmt3 s <|> parseFmt4 s <|> parseFmt5 s

/-- Decimal digits of a natural number, zero-padded on the left to width `w`. -/
def padZeros (w n : Nat) : Str :=
  let ds := Nat.toDigits 10 n
  List.replicate (w - ds.length) '0' ++ ds

/-- Rendering of a UTC offset (microseconds), as `datetime.isoformat()` does. -/
def offsetToStr (off : Int) : Str :=
  let sign : Char := if off < 0 then '-' else '+'
  let a := off.natAbs
  let us := a % 1000000
  let totsec := a / 1000000
  let hh := totsec / 3600
  let mm := totsec % 3600 / 60
  let ss := totsec % 60
  [sign] ++ padZeros 2 hh ++ [':'] ++ padZeros 2 mm
    ++ (if ss ≠ 0 ∨ us ≠ 0 then [':'] ++ padZeros 2 ss else [])
    ++ (if us ≠ 0 then ['.'] ++ padZeros 6 us else [])

/-- Embedding of `datetime.isoformat()` (microsecond is always 0 for `strptime` results of
the five formats, so the fractional seconds field never appears). -/
def isoformat (dt : PyDateTime) : Str :=
  padZeros 4 dt.year ++ ['-'] ++ padZeros 2 dt.month ++ ['-'] ++ padZeros 2 dt.day
    ++ ['T'] ++ padZeros 2 dt.hour ++ [':'] ++ padZeros 2 dt.minute
    ++ [':'] ++ padZeros 2 dt.second
    ++ (match dt.tzoff with
        | some off => offsetToStr off
        | none => [])

/-- The date normalization of `normalize_item` (lines 128-129):
`dt.isoformat() if dt else item["pubDate"]`. -/
def normalize_date (s : Str) : Str :=
  match parse_date s with
  | some dt => isoformat dt
  | none => s

/-- Embedding of `normalize_item(item)` (lines 126-158): ISO-normalize the date when it
parses, run the title strip loop, keep the link. -/
def normalize_item (item : Item) : Item :=
  let ts := clean_title item.title item.source
  { title := ts.1, link := item.link, pubDate := normalize_date item.pubDate,
    source := ts.2 }

/-! ### Archive merge (`merge_items`, lines 180-191) -/

/-- Python string `<=`: lexicographic comparison by code point. -/
def strLe : Str → Str → Bool
  | [], _ => true
  | _ :: _, [] => false
  | a :: as, b :: bs =>
    if a.toNat < b.toNat then true
    else if b.toNat < a.toNat then false
    else strLe as bs

/-- The comparator realised by `existing.sort(key=..., reverse=True)`:
`x` may precede `y` when `x.pubDate >= y.pubDate`. -/
def itemGe (x y : Item) : Bool := strLe y.pubDate x.pubDate

/-- The `for item in new_items` loop of `merge_items`: returns the sublist of
items actually appended (in order) and the `added` counter. -/
def merge_loop (seen : List Str) : List Item → List Item × Nat
  | [] => ([], 0)
  | it :: rest =>
    if it.link ∈ seen then merge_loop seen rest
    else
      let p := merge_loop (it.link :: seen) rest
      (it :: p.1, p.2 + 1)

/-- The links of a list of items (`{item["link"] for item in existing}` as a
list; the source only uses membership). -/
def links (l : List Item) : List Str := l.map Item.link

/-- Embedding of `merge_items(existing, new_items)`: append unseen-link items, then sort by
`pubDate` descending (Python's stable sort; `List.mergeSort` is likewise a
stable merge sort). -/
def merge_items (existing new_items : List Item) : List Item × Nat :=
  let p := merge_loop (links existing) new_items
  ((existing ++ p.1).mergeSort itemGe, p.2)

theorem strLe_total (x y : Str) : (strLe x y || strLe y x) = true := by
  induction x generalizing y with
  | nil => simp [strLe]
  | cons a as ih =>
    cases y with
    | nil => simp [strLe]
    | cons b bs =>
      simp only [strLe]
      rcases Nat.lt_trichotomy a.toNat b.toNat with h | h | h
      · simp [h]
      · simp [h, Nat.lt_irrefl, ih bs]
      · simp [h, Nat.lt_asymm h]

theorem strLe_trans : ∀ x y z : Str, strLe x y = true → strLe y z = true →
    strLe x z = true
  | [], _, _, _, _ => by simp [strLe]
  | _ :: _, [], _, hxy, _ => by simp [strLe] at hxy
  | _ :: _, _ :: _, [], _, hyz => by simp [strLe] at hyz
  | a :: as, b :: bs, c :: cs, hxy, hyz => by
    simp only [strLe] at hxy hyz ⊢
    rcases Nat.lt_trichotomy a.toNat b.toNat with hab | hab | hab
    · rcases Nat.lt_trichotomy b.toNat c.toNat with hbc | hbc | hbc
      · rw [if_pos (by omega)]
      · rw [if_pos (by omega)]
      · rw [if_neg (by omega), if_pos hbc] at hyz
        exact Bool.noConfusion hyz
    · rcases Nat.lt_trichotomy b.toNat c.toNat with hbc | hbc | hbc
      · rw [if_pos (by omega)]
      · rw [if_neg (by omega), if_neg (by omega)] at hxy
        rw [if_neg (by omega), if_neg (by omega)] at hyz
        rw [if_neg (by omega), if_neg (by omega)]
        exact strLe_trans as bs cs hxy hyz
      · rw [if_neg (by omega), if_pos hbc] at hyz
        exact Bool.noConfusion hyz
    · rw [if_neg (by omega), if_pos hab] at hxy
      exact Bool.noConfusion hxy

theorem itemGe_total (x y : Item) : (itemGe x y || itemGe y x) = true := by
  simpa [itemGe] using strLe_total y.pubDate x.pubDate

theorem itemGe_trans (x y z : Item) (h1 : itemGe x y = true) (h2 : itemGe y z = true) :
    itemGe x z = true :=
  strLe_trans z.pubDate y.pubDate x.pubDate h2 h1

theorem merge_loop_length (seen : List Str) (l : List Item) :
    (merge_loop seen l).1.length = (merge_loop seen l).2 := by
  induction l generalizing seen with
  | nil => rfl
  | cons it rest ih =>
    by_cases h : it.link ∈ seen
    · simpa [merge_loop, h] using ih seen
    · simp [merge_loop, h, ih (it.link :: seen)]

theorem merge_loop_links_mem (seen : List Str) (l : List Item) (x : Str) :
    x ∈ seen ∨ x ∈ links (merge_loop seen l).1 ↔ x ∈ seen ∨ x ∈ links l := by
  induction l generalizing seen with
  | nil => simp [merge_loop]
  | cons it rest ih =>
    by_cases h : it.link ∈ seen
    · rw [merge_loop, if_pos h, ih seen]
      simp only [links, List.map_cons, List.mem_cons]
      constructor
      · rintro (hs | hl)
        · exact Or.inl hs
        · exact Or.inr (Or.inr hl)
      · rintro (hs | rfl | hl)
        · exact Or.inl hs
        · exact Or.inl h
        · exact Or.inr hl
    · rw [merge_loop, if_neg h]
      have hih := ih (it.link :: seen)
      simp only [links, List.map_cons, List.mem_cons] at hih ⊢
      tauto

theorem merge_loop_all_seen (seen : List Str) (l : List Item)
    (h : ∀ it ∈ l, it.link ∈ seen) : merge_loop seen l = ([], 0) := by
  induction l with
  | nil => rfl
  | cons it rest ih =>
    rw [merge_loop, if_pos (h it (List.mem_cons_self it rest))]
    exact ih fun x hx => h x (List.mem_cons_of_mem _ hx)

theorem merge_loop_fresh (seen : List Str) (l : List Item) :
    (links (merge_loop seen l).1).Nodup ∧
      ∀ x ∈ links (merge_loop seen l).1, x ∉ seen := by
  induction l generalizing seen with
  | nil => simp [merge_loop, links]
  | cons it rest ih =>
    by_cases h : it.link ∈ seen
    · rw [merge_loop, if_pos h]
      exact ih seen
    · rw [merge_loop, if_neg h]
      obtain ⟨hnd, hfr⟩ := ih (it.link :: seen)
      refine ⟨?_, ?_⟩
      · simp only [links, List.map_cons, List.nodup_cons]
        exact ⟨fun hmem => hfr _ hmem (List.mem_cons_self _ _), hnd⟩
      · intro x hx hxs
        simp only [links, List.map_cons, List.mem_cons] at hx
        rcases hx with rfl | hx
        · exact h hxs
        · exact hfr x hx (List.mem_cons_of_mem _ hxs)

/-! ### Orchestrator (`main`, lines 218-250)

The network fetch is an external collaborator: each company's fetch outcome is
supplied as data, `none` standing for a raised exception (caught by the
`try/except` around the loop body, leaving the archive untouched) and
`some raw_items` for a successful fetch. -/

def MAX_ITEMS_PER_FETCH : Nat := 20

/-- One iteration of the `for company in COMPANIES` loop: filter by allowed
source, truncate, normalize, merge into this company's archived list; on a
fetch error the archive map is unchanged and `added` is 0. -/
def process_company (companies : Str → List Item) (name : Str)
    (fetchResult : Option (List Item)) : (Str → List Item) × Nat :=
  match fetchResult with
  | none => (companies, 0)
  | some raw_items =>
    let filtered := raw_items.filter is_from_allowed_source
    let normalized := (filtered.take MAX_ITEMS_PER_FETCH).map normalize_item
    let p := merge_items (companies name) normalized
    (fun n => if n = name then p.1 else companies n, p.2)

/-- The whole per-company loop of `main` together with its return value:
yields the final `companies` map, `total_added`, and the exit status, which is
the constant 0 (`main` ends in `return 0` whatever the loop did). -/
def run_main (companies : Str → List Item) :
    List (Str × Option (List Item)) → (Str → List Item) × Nat × Nat
  | [] => (companies, 0, 0)
  | (name, fr) :: rest =>
    let p := process_company companies name fr
    let q := run_main p.1 rest
    (q.1, p.2 + q.2.1, 0)

/-! ### The strip loop characterized (for C1) -/

/-- The strip condition of one loop iteration, verbatim from line 146:
the trailing segment equals an allow-listed name case-insensitively, or the
source is non-empty and the segment equals it case-insensitively. -/
def segMatches (trailing source : Str) : Prop :=
  isKnownSource trailing = true ∨ (source ≠ [] ∧ lowerStr trailing = lowerStr source)

/-- Relation `Strips t s t' s'`: `(t', s')` is reachable from `(t, s)` by repeatedly
splitting off the last `" - "` segment whose stripped text satisfies
`segMatches` (adopting it as source when the source was empty).  Every step
removes only a recognized attribution segment. -/
inductive Strips : Str → Str → Str → Str → Prop
  | refl (t s : Str) : Strips t s t s
  | step (t s t' s' p0 p1 : Str) :
      rsplit1 t = some (p0, p1) →
      segMatches (pyStrip p1) s →
      Strips (pyStrip p0) (if s = [] then pyStrip p1 else s) t' s' →
      Strips t s t' s'

theorem clean_title_loop_strips (fuel : Nat) :
    ∀ t s : Str, t.length < fuel →
      Strips t s (clean_title_loop fuel t s).1 (clean_title_loop fuel t s).2 ∧
      ∀ p0 p1, rsplit1 (clean_title_loop fuel t s).1 = some (p0, p1) →
        ¬ segMatches (pyStrip p1) (clean_title_loop fuel t s).2 := by
  induction fuel with
  | zero => intro t s h; omega
  | succ fuel ih =>
    intro t s h
    rw [clean_title_loop]
    cases hr : rsplit1 t with
    | none =>
      refine ⟨Strips.refl t s, fun p0 p1 hp => ?_⟩
      rw [hr] at hp
      cases hp
    | some p =>
      obtain ⟨p0, p1⟩ := p
      simp only
      split
      · rename_i hcond
        have hlen : p0.length + 3 ≤ t.length := rsplit1_fst_length_lt t p0 p1 hr
        have hps : (pyStrip p0).length ≤ p0.length := pyStrip_length_le p0
        obtain ⟨hstrips, hstop⟩ := ih (pyStrip p0) _ (by omega)
        exact ⟨Strips.step t s _ _ p0 p1 hr hcond hstrips, hstop⟩
      · rename_i hcond
        refine ⟨Strips.refl t s, fun q0 q1 hq => ?_⟩
        rw [hr] at hq
        simp only [Option.some.injEq, Prod.mk.injEq] at hq
        obtain ⟨rfl, rfl⟩ := hq
        exact hcond

/-- The source is never overwritten once non-empty (lines 147-148 only assign
`source` under `if not source`). -/
theorem clean_title_loop_source_stable (fuel : Nat) :
    ∀ t s : Str, s ≠ [] → (clean_title_loop fuel t s).2 = s := by
  induction fuel with
  | zero => intro t s _; rfl
  | succ fuel ih =>
    intro t s hs
    rw [clean_title_loop]
    cases hr : rsplit1 t with
    | none => rfl
    | some p =>
      obtain ⟨p0, p1⟩ := p
      simp only
      split
      · exact ih _ s hs
      · rfl

/-! ### Claim theorems -/

/-- C8 — the filter accepts exactly when an allow-listed name occurs
case-insensitively as a substring of the title or of the source (stated via
`List.IsInfix`, the propositional counterpart of the executable check); in
particular an item with empty source is accepted on a title match alone.  The
function is pure by construction. -/
theorem is_from_allowed_source_iff (item : Item) :
    (is_from_allowed_source item = true ↔
      ∃ src ∈ ALLOWED_SOURCES,
        lowerStr src <:+: lowerStr item.title ∨ lowerStr src <:+: lowerStr item.source) ∧
    (item.source = [] →
      (∃ src ∈ ALLOWED_SOURCES, lowerStr src <:+: lowerStr item.title) →
      is_from_allowed_source item = true) := by
  have hiff : is_from_allowed_source item = true ↔
      ∃ src ∈ ALLOWED_SOURCES,
        lowerStr src <:+: lowerStr item.title ∨ lowerStr src <:+: lowerStr item.source := by
    simp only [is_from_allowed_source, List.any_eq_true, Bool.or_eq_true, isSubstr_iff]
  refine ⟨hiff, fun _ h => hiff.mpr ?_⟩
  obtain ⟨src, hmem, hinf⟩ := h
  exact ⟨src, hmem, Or.inl hinf⟩

/-- Witness for C8 at a concrete item with empty source and a title
mentioning Reuters. -/
theorem is_from_allowed_source_iff_witness :
    (Item.mk "Acme wins - Reuters".data "l1".data "d".data []).source = [] ∧
      is_from_allowed_source (Item.mk "Acme wins - Reuters".data "l1".data "d".data []) = true :=
  ⟨rfl,
    (is_from_allowed_source_iff (Item.mk "Acme wins - Reuters".data "l1".data "d".data [])).2
      rfl
      ⟨"Reuters".data, by decide, (isSubstr_iff _ _).mp (by decide)⟩⟩

/-- The link field is copied verbatim by `normalize_item`. -/
theorem normalize_item_link (item : Item) : (normalize_item item).link = item.link := rfl

/-- C1 — the strip loop removes trailing `" - "` segments exactly while they
match a known source or the (non-empty, possibly just-adopted) source field:
the result is reachable from the input by `Strips` steps alone, the loop stops
only at a non-matching trailing segment (or no delimiter), and the spec's
multi-segment example strips down to `"Market Rallies"`. -/
theorem normalizeTitle_strips_only_attributions (t s : Str) :
    Strips t s (clean_title t s).1 (clean_title t s).2 ∧
      (∀ p0 p1, rsplit1 (clean_title t s).1 = some (p0, p1) →
        ¬ segMatches (pyStrip p1) (clean_title t s).2) ∧
      clean_title "Market Rallies - CHOSUNBIZ - Chosunbiz".data [] =
        ("Market Rallies".data, "Chosunbiz".data) := by
  obtain ⟨h1, h2⟩ := clean_title_loop_strips (t.length + 1) t s (by omega)
  exact ⟨h1, h2, by decide⟩

/-- Witness for C1: on `"Talks Continue - for now"` the loop performs no strip
and its final trailing segment is indeed non-matching. -/
theorem normalizeTitle_strips_only_attributions_witness :
    Strips "Talks Continue - for now".data []
        (clean_title "Talks Continue - for now".data []).1
        (clean_title "Talks Continue - for now".data []).2 ∧
      ¬ segMatches (pyStrip "for now".data) [] :=
  ⟨(normalizeTitle_strips_only_attributions "Talks Continue - for now".data []).1,
    (normalizeTitle_strips_only_attributions "Talks Continue - for now".data []).2.1
      "Talks Continue".data "for now".data (by decide)⟩

/-- C5 — the strip loop terminates: its result is already stable at any fuel
beyond `title.length` (each iteration removes at least the three delimiter
characters), and a title without `" - "` is returned unchanged. -/
theorem normalizeTitle_terminates (t s : Str) (fuel : Nat) (h : t.length < fuel) :
    clean_title_loop fuel t s = clean_title t s ∧
      (¬ delim <:+: t → clean_title t s = (t, s)) := by
  refine ⟨clean_title_loop_congr fuel (t.length + 1) t s h (by omega), fun hno => ?_⟩
  have hr : rsplit1 t = none := (rsplit1_none_iff t).mpr hno
  rw [clean_title, clean_title_loop, hr]

/-- Witness for C5 at a delimiter-free title and fuel 50. -/
theorem normalizeTitle_terminates_witness :
    ("Hello World".data : Str).length < 50 ∧
      clean_title_loop 50 "Hello World".data [] = clean_title "Hello World".data [] ∧
      clean_title "Hello World".data [] = ("Hello World".data, []) :=
  ⟨by decide,
    (normalizeTitle_terminates "Hello World".data [] 50 (by decide)).1,
    (normalizeTitle_terminates "Hello World".data [] 50 (by decide)).2
      ((rsplit1_none_iff "Hello World".data).mp (by decide))⟩

/-- C6 — `parse_date` (and hence `normalize_date`) is a total function; when
no format parses, the original string is returned unchanged. -/
theorem normalize_date_fallback (s : Str) (h : parse_date s = none) :
    normalize_date s = s := by
  simp [normalize_date, h]

/-- Witness for C6: `normalize_date "not a date"` is `"not a date"`. -/
theorem normalize_date_fallback_witness :
    parse_date "not a date".data = none ∧
      normalize_date "not a date".data = "not a date".data :=
  ⟨by decide, normalize_date_fallback "not a date".data (by decide)⟩

/-- C7 — the RFC-822 example parses with the first format (to a naive
datetime, exactly as CPython's `%Z` does) and renders in ISO-8601. -/
theorem normalize_date_rfc822_gmt :
    parse_date "Thu, 27 Feb 2026 10:30:00 GMT".data =
        some ⟨2026, 2, 27, 10, 30, 0, none⟩ ∧
      normalize_date "Thu, 27 Feb 2026 10:30:00 GMT".data =
        "2026-02-27T10:30:00".data := by
  exact ⟨by decide, by decide⟩

/-- C10 — `normalize_item` copies the link verbatim and never overwrites a
non-empty source. -/
theorem normalize_item_preserves (item : Item) :
    (normalize_item item).link = item.link ∧
      (item.source ≠ [] → (normalize_item item).source = item.source) := by
  refine ⟨normalize_item_link item, fun hs => ?_⟩
  show (clean_title_loop (item.title.length + 1) item.title item.source).2 = item.source
  exact clean_title_loop_source_stable _ _ _ hs

/-- Witness for C10 at an item with non-empty source. -/
theorem normalize_item_preserves_witness :
    (normalize_item (Item.mk "A - Reuters".data "L1".data "x".data "Reuters".data)).link
        = "L1".data ∧
      ("Reuters".data : Str) ≠ [] ∧
      (normalize_item (Item.mk "A - Reuters".data "L1".data "x".data "Reuters".data)).source
        = "Reuters".data :=
  ⟨(normalize_item_preserves (Item.mk "A - Reuters".data "L1".data "x".data "Reuters".data)).1,
    by decide,
    (normalize_item_preserves (Item.mk "A - Reuters".data "L1".data "x".data "Reuters".data)).2
      (by decide)⟩

/-- Helper: the links of the merged list are exactly the union of the links of
the existing list and of the incoming batch. -/
theorem merge_items_links (E B : List Item) (x : Str) :
    x ∈ links (merge_items E B).1 ↔ x ∈ links E ∨ x ∈ links B := by
  have hperm := List.mergeSort_perm (E ++ (merge_loop (links E) B).1) itemGe
  have hmem : x ∈ links (merge_items E B).1 ↔
      x ∈ links (E ++ (merge_loop (links E) B).1) := (hperm.map Item.link).mem_iff
  rw [hmem,
    show links (E ++ (merge_loop (links E) B).1)
        = links E ++ links (merge_loop (links E) B).1 from List.map_append _ _ _,
    List.mem_append]
  exact merge_loop_links_mem (links E) B x

/-- C2 — merging the same batch a second time adds nothing. -/
theorem merge_items_idempotent (E B : List Item) :
    (merge_items (merge_items E B).1 B).2 = 0 := by
  have hall : ∀ it ∈ B, it.link ∈ links (merge_items E B).1 := fun it hit =>
    (merge_items_links E B it.link).mpr (Or.inr (List.mem_map_of_mem Item.link hit))
  show (merge_loop (links (merge_items E B).1) B).2 = 0
  rw [merge_loop_all_seen _ _ hall]

/-- C3 — the merged list's length is the existing length plus the returned
count, and its link set is the union of the links of both inputs. -/
theorem merge_items_growth (E B : List Item) :
    (merge_items E B).1.length = E.length + (merge_items E B).2 ∧
      ∀ x : Str, x ∈ links (merge_items E B).1 ↔ x ∈ links E ∨ x ∈ links B := by
  constructor
  · show ((E ++ (merge_loop (links E) B).1).mergeSort itemGe).length
        = E.length + (merge_loop (links E) B).2
    rw [List.length_mergeSort, List.length_append, merge_loop_length]
  · exact merge_items_links E B

/-- C4 — the merged list has pairwise-distinct links (assuming the existing
list had), and adjacent items are in non-increasing `pubDate` string order. -/
theorem merge_items_invariants (E B : List Item) :
    ((links E).Nodup → (links (merge_items E B).1).Nodup) ∧
      List.Chain' (fun a b => strLe b.pubDate a.pubDate = true) (merge_items E B).1 := by
  constructor
  · intro hE
    have hfr := merge_loop_fresh (links E) B
    have hnd : (links (E ++ (merge_loop (links E) B).1)).Nodup := by
      rw [show links (E ++ (merge_loop (links E) B).1)
          = links E ++ links (merge_loop (links E) B).1 from List.map_append _ _ _]
      exact List.Nodup.append hE hfr.1 fun x hx hx2 => hfr.2 x hx2 hx
    have hperm := List.mergeSort_perm (E ++ (merge_loop (links E) B).1) itemGe
    show (links ((E ++ (merge_loop (links E) B).1).mergeSort itemGe)).Nodup
    exact ((hperm.map Item.link).symm).nodup hnd
  · have hs := List.sorted_mergeSort itemGe_trans itemGe_total
      (E ++ (merge_loop (links E) B).1)
    exact hs.chain'

/-- Witness for C4 at a concrete merge of two items into a unit list. -/
theorem merge_items_invariants_witness :
    (links [Item.mk "t0".data "l0".data "2024".data "s".data]).Nodup ∧
      (links (merge_items [Item.mk "t0".data "l0".data "2024".data "s".data]
        [Item.mk "t1".data "l1".data "2025".data "s".data,
         Item.mk "t2".data "l2".data "2023".data "s".data]).1).Nodup ∧
      List.Chain' (fun a b => strLe b.pubDate a.pubDate = true)
        (merge_items [Item.mk "t0".data "l0".data "2024".data "s".data]
          [Item.mk "t1".data "l1".data "2025".data "s".data,
           Item.mk "t2".data "l2".data "2023".data "s".data]).1 :=
  ⟨by decide,
    (merge_items_invariants [Item.mk "t0".data "l0".data "2024".data "s".data]
      [Item.mk "t1".data "l1".data "2025".data "s".data,
       Item.mk "t2".data "l2".data "2023".data "s".data]).1 (by decide),
    (merge_items_invariants [Item.mk "t0".data "l0".data "2024".data "s".data]
      [Item.mk "t1".data "l1".data "2025".data "s".data,
       Item.mk "t2".data "l2".data "2023".data "s".data]).2⟩

/-- C9 — per-entity failure isolation: with entity A's fetch raising and
entity B's fetch returning two allowed items with fresh distinct links, the
run leaves A's archived list unchanged, grows B's list by exactly 2, and
`main` still returns exit status 0. -/
theorem main_per_entity_isolation
    (companies : Str → List Item) (A B : Str) (i1 i2 : Item)
    (hAB : A ≠ B)
    (h1 : is_from_allowed_source i1 = true) (h2 : is_from_allowed_source i2 = true)
    (hl12 : i1.link ≠ i2.link)
    (hl1 : i1.link ∉ links (companies B)) (hl2 : i2.link ∉ links (companies B)) :
    (run_main companies [(A, none), (B, some [i1, i2])]).1 A = companies A ∧
      ((run_main companies [(A, none), (B, some [i1, i2])]).1 B).length =
        (companies B).length + 2 ∧
      (run_main companies [(A, none), (B, some [i1, i2])]).2.2 = 0 := by
  have hml : merge_loop (links (companies B)) [normalize_item i1, normalize_item i2] =
      ([normalize_item i1, normalize_item i2], 2) := by
    have hm1 : (normalize_item i1).link ∉ links (companies B) := by
      rw [normalize_item_link]; exact hl1
    have hm2 : (normalize_item i2).link ∉
        (normalize_item i1).link :: links (companies B) := by
      rw [normalize_item_link, normalize_item_link]
      intro hmem
      rcases List.mem_cons.mp hmem with h | h
      · exact hl12 h.symm
      · exact hl2 h
    rw [merge_loop, if_neg hm1, merge_loop, if_neg hm2, merge_loop]
  have hfilter : List.filter is_from_allowed_source [i1, i2] = [i1, i2] := by
    simp [List.filter_cons, h1, h2]
  have hproc : process_company companies B (some [i1, i2]) =
      (fun n => if n = B then
          (merge_items (companies B) [normalize_item i1, normalize_item i2]).1
        else companies n,
        (merge_items (companies B) [normalize_item i1, normalize_item i2]).2) := by
    rw [process_company, hfilter]
    rfl
  have hrun : run_main companies [(A, none), (B, some [i1, i2])] =
      ((fun n => if n = B then
          (merge_items (companies B) [normalize_item i1, normalize_item i2]).1
        else companies n),
        0 + ((merge_items (companies B) [normalize_item i1, normalize_item i2]).2 + 0), 0) := by
    rw [run_main, run_main, run_main]
    rw [show process_company companies A none = (companies, 0) from rfl]
    rw [hproc]
  refine ⟨?_, ?_, ?_⟩
  · rw [hrun]
    exact if_neg hAB
  · rw [hrun]
    simp only [if_pos rfl]
    show ((companies B ++
        (merge_loop (links (companies B)) [normalize_item i1, normalize_item i2]).1).mergeSort
          itemGe).length = (companies B).length + 2
    rw [hml, List.length_mergeSort, List.length_append]
    rfl
  · rw [hrun]

/-- Witness for C9 on an empty archive with two concrete Reuters items. -/
theorem main_per_entity_isolation_witness :
    (run_main (fun _ => []) [("A".data, none), ("B".data, some
        [Item.mk "X - Reuters".data "l1".data "d1".data "".data,
         Item.mk "Y - Reuters".data "l2".data "d2".data "".data])]).1 "A".data = [] ∧
      ((run_main (fun _ => []) [("A".data, none), ("B".data, some
        [Item.mk "X - Reuters".data "l1".data "d1".data "".data,
         Item.mk "Y - Reuters".data "l2".data "d2".data "".data])]).1 "B".data).length
        = 0 + 2 ∧
      (run_main (fun _ => []) [("A".data, none), ("B".data, some
        [Item.mk "X - Reuters".data "l1".data "d1".data "".data,
         Item.mk "Y - Reuters".data "l2".data "d2".data "".data])]).2.2 = 0 := by
  have h := main_per_entity_isolation (fun _ => []) "A".data "B".data
    (Item.mk "X - Reuters".data "l1".data "d1".data "".data)
    (Item.mk "Y - Reuters".data "l2".data "d2".data "".data)
    (by decide) (by decide) (by decide) (by decide) (by decide) (by decide)
  exact h
